import Mathlib

/-!
# DeviceBezels catalog generator: a shallow embedding

This file embeds the pure core of `src/devicebezels/catalog.py` in Lean 4 and
proves the specification claims about it.

Modelling conventions:
* Strings are modelled as Lean `String`/`List Char`.  Python's `str.lower` and
  `str.strip` are modelled over the ASCII range (the regex class `[a-z0-9]`
  used by the source is itself ASCII); Unicode special case foldings are out
  of scope of the embedding.
* Python `float` arithmetic in `compute_viewport` (`scale`, `inverse_scale`,
  `round`) is modelled by exact rational arithmetic over `ℚ`; `round` is
  Python 3's round-half-to-even.
* A decoded PIL image is modelled by its width, height and optional alpha
  channel (a total function giving the 0–255 alpha sample of each pixel).
-/

/-! ## slugify (catalog.py lines 21–26) -/

/-- The character class `[a-z0-9]` of the regex in `slugify`. -/
def isSlugAlnum (c : Char) : Bool :=
  ('a' ≤ c && c ≤ 'z') || ('0' ≤ c && c ≤ '9')

/-- Python `str.lower` (ASCII case mapping: `A`–`Z` shifted to `a`–`z`). -/
def pyToLower (c : Char) : Char :=
  if 'A' ≤ c ∧ c ≤ 'Z' then Char.ofNat (c.toNat + 32) else c

/-- ASCII whitespace stripped by Python `str.strip()`. -/
def isPySpace (c : Char) : Bool :=
  c = ' ' || c = '\t' || c = '\n' || c = '\x0d' || c = '\x0b' || c = '\x0c'

/-- Strip characters satisfying `p` from both ends of a list
(models Python `str.strip` / `str.strip("-")`). -/
def stripEnds (p : Char → Bool) (l : List Char) : List Char :=
  ((l.dropWhile p).reverse.dropWhile p).reverse

/-- `re.sub(r"[^a-z0-9]+", "-", value)`: replace every maximal run of
characters outside `[a-z0-9]` by one hyphen. -/
def collapseRuns : List Char → List Char
  | [] => []
  | c :: rest =>
    if isSlugAlnum c then c :: collapseRuns rest
    else '-' :: collapseRuns (rest.dropWhile fun d => !isSlugAlnum d)
termination_by l => l.length
decreasing_by
  · simp
  · have := List.Sublist.length_le (List.dropWhile_sublist (l := rest)
      (fun d => !isSlugAlnum d))
    simp
    omega

/-- `slugify` on a list of characters: strip whitespace, lower-case, collapse
non-alphanumeric runs to hyphens, trim hyphens, and fall back to `"unknown"`
when empty.  Mirrors the source line by line. -/
def slugChars (l : List Char) : List Char :=
  let v1 := stripEnds isPySpace l
  let v2 := v1.map pyToLower
  let v3 := collapseRuns v2
  let v4 := stripEnds (fun c => c = '-') v3
  if v4 = [] then "unknown".data else v4

/-- `slugify(value)` from the source. -/
def slugify (s : String) : String :=
  String.mk (slugChars s.data)

/-- The slug computation as the spec words it: lower-cased, each maximal run
of non-`[a-z0-9]` characters collapsed to a single hyphen, leading/trailing
hyphens trimmed, empty result replaced by `"unknown"`.  (The spec does not
mention the whitespace pre-strip that the source performs.) -/
def slugCharsSpec (l : List Char) : List Char :=
  let lowered := l.map pyToLower
  let collapsed := collapseRuns lowered
  let trimmed := stripEnds (fun c => c = '-') collapsed
  if trimmed = [] then "unknown".data else trimmed

/-- Spec-worded slugify on strings. -/
def slugifySpec (s : String) : String :=
  String.mk (slugCharsSpec s.data)

/-! ### Character-level facts -/

lemma char_le_iff_toNat {a c : Char} : a ≤ c ↔ a.toNat ≤ c.toNat := by
  rw [Char.le_def, UInt32.le_def]
  exact ⟨fun h => h, fun h => h⟩

lemma char_eq_of_toNat_eq {a b : Char} (h : a.toNat = b.toNat) : a = b := by
  apply Char.eq_of_val_eq
  apply UInt32.eq_of_val_eq
  apply Fin.eq_of_val_eq
  exact h

lemma char_toNat_ofNat {n : Nat} (h : Nat.isValidChar n) :
    (Char.ofNat n).toNat = n := by
  simp only [Char.ofNat, Char.toNat]
  rw [dif_pos h]
  rfl

lemma isSlugAlnum_iff {c : Char} :
    isSlugAlnum c = true ↔
      (97 ≤ c.toNat ∧ c.toNat ≤ 122) ∨ (48 ≤ c.toNat ∧ c.toNat ≤ 57) := by
  simp only [isSlugAlnum, Bool.or_eq_true, Bool.and_eq_true, decide_eq_true_eq,
    char_le_iff_toNat]
  constructor
  · rintro (⟨h1, h2⟩ | ⟨h1, h2⟩)
    · exact Or.inl ⟨h1, char_le_iff_toNat.mp h2⟩
    · exact Or.inr ⟨h1, char_le_iff_toNat.mp h2⟩
  · rintro (⟨h1, h2⟩ | ⟨h1, h2⟩)
    · exact Or.inl ⟨h1, char_le_iff_toNat.mpr h2⟩
    · exact Or.inr ⟨h1, char_le_iff_toNat.mpr h2⟩

lemma isPySpace_toNat {c : Char} (h : isPySpace c = true) :
    c.toNat ∈ [32, 9, 10, 13, 11, 12] := by
  simp only [isPySpace, Bool.or_eq_true, decide_eq_true_eq] at h
  rcases h with ((((h | h) | h) | h) | h) | h <;> subst h <;> decide

lemma not_isSlugAlnum_of_isPySpace {c : Char} (h : isPySpace c = true) :
    isSlugAlnum c = false := by
  have hmem := isPySpace_toNat h
  rw [Bool.eq_false_iff]
  intro hal
  rw [isSlugAlnum_iff] at hal
  simp only [List.mem_cons, List.not_mem_nil, or_false] at hmem
  omega

lemma isPySpace_pyToLower (c : Char) : isPySpace (pyToLower c) = isPySpace c := by
  unfold pyToLower
  split
  · next h =>
    have h1 : 65 ≤ c.toNat := char_le_iff_toNat.mp h.1
    have h2 : c.toNat ≤ 90 := char_le_iff_toNat.mp h.2
    have hvalid : Nat.isValidChar (c.toNat + 32) := Or.inl (by omega)
    have hv := char_toNat_ofNat hvalid
    have hlow : isPySpace (Char.ofNat (c.toNat + 32)) = false := by
      rw [Bool.eq_false_iff]
      intro hs
      have hmem := isPySpace_toNat hs
      rw [hv] at hmem
      simp only [List.mem_cons, List.not_mem_nil, or_false] at hmem
      omega
    have hc : isPySpace c = false := by
      rw [Bool.eq_false_iff]
      intro hs
      have hmem := isPySpace_toNat hs
      simp only [List.mem_cons, List.not_mem_nil, or_false] at hmem
      omega
    rw [hlow, hc]
  · rfl

lemma pyToLower_eq_self {c : Char} (h : isSlugAlnum c = true ∨ c = '-') :
    pyToLower c = c := by
  unfold pyToLower
  rw [if_neg]
  intro hAZ
  have h1 : 65 ≤ c.toNat := char_le_iff_toNat.mp hAZ.1
  have h2 : c.toNat ≤ 90 := char_le_iff_toNat.mp hAZ.2
  rcases h with h | h
  · rw [isSlugAlnum_iff] at h
    omega
  · subst h
    revert h1
    decide

/-! ### collapseRuns structure -/

lemma isSlugAlnum_hyphen : isSlugAlnum '-' = false := by decide

lemma collapseRuns_nil : collapseRuns [] = [] := by
  simp [collapseRuns]

lemma collapseRuns_cons_pos {c : Char} (l : List Char) (hc : isSlugAlnum c = true) :
    collapseRuns (c :: l) = c :: collapseRuns l := by
  rw [collapseRuns, if_pos hc]

lemma collapseRuns_cons_neg {c : Char} (l : List Char) (hc : isSlugAlnum c = false) :
    collapseRuns (c :: l) =
      '-' :: collapseRuns (l.dropWhile fun d => !isSlugAlnum d) := by
  rw [collapseRuns, if_neg (by simp [hc])]

lemma collapseRuns_ne_nil {l : List Char} (h : l ≠ []) : collapseRuns l ≠ [] := by
  match l with
  | [] => exact absurd rfl h
  | c :: rest =>
    by_cases hc : isSlugAlnum c = true
    · rw [collapseRuns_cons_pos rest hc]
      simp
    · rw [collapseRuns_cons_neg rest (Bool.eq_false_iff.mpr hc)]
      simp

/-- Appending one non-alphanumeric character extends the final run (or starts
a new one): the collapsed form gains a trailing hyphen unless it already ends
in one. -/
lemma collapseRuns_snoc_nonalnum {c : Char} (hc : isSlugAlnum c = false) :
    ∀ n (l : List Char), l.length ≤ n →
      collapseRuns (l ++ [c]) =
        if (collapseRuns l).getLast? = some '-' then collapseRuns l
        else collapseRuns l ++ ['-'] := by
  intro n
  induction n with
  | zero =>
    intro l hl
    have : l = [] := List.length_eq_zero.mp (Nat.le_zero.mp hl)
    subst this
    rw [List.nil_append, collapseRuns_cons_neg _ hc, collapseRuns_nil]
    simp [collapseRuns_nil]
  | succ n ih =>
    intro l hl
    match l with
    | [] =>
      rw [List.nil_append, collapseRuns_cons_neg _ hc, collapseRuns_nil]
      simp [collapseRuns_nil]
    | a :: l' =>
      simp only [List.length_cons, Nat.succ_le_succ_iff] at hl
      by_cases ha : isSlugAlnum a = true
      · rw [List.cons_append, collapseRuns_cons_pos _ ha, collapseRuns_cons_pos _ ha,
          ih l' hl]
        rcases hcl : collapseRuns l' with _ | ⟨d, ds⟩
        · have : a ≠ '-' := by
            intro h
            rw [h] at ha
            exact absurd ha (by simp [isSlugAlnum_hyphen])
          simp [hcl, this]
        · rw [List.getLast?_cons_cons]
          by_cases hend : (d :: ds).getLast? = some '-'
          · simp [hend]
          · simp [hend]
      · have ha' : isSlugAlnum a = false := Bool.eq_false_iff.mpr ha
        rw [List.cons_append, collapseRuns_cons_neg _ ha', collapseRuns_cons_neg _ ha',
          List.dropWhile_append]
        rcases hdw : l'.dropWhile (fun d => !isSlugAlnum d) with _ | ⟨b, l''⟩
        · simp only [List.isEmpty_nil, if_true]
          have : List.dropWhile (fun d => !isSlugAlnum d) [c] = [] := by
            simp [List.dropWhile_cons, hc]
          rw [this, collapseRuns_nil]
          simp [collapseRuns_nil]
        · simp only [List.isEmpty_cons, if_false, Bool.false_eq_true]
          have hlen : (b :: l'').length ≤ n := by
            have := List.Sublist.length_le
              (List.dropWhile_sublist (l := l') (fun d => !isSlugAlnum d))
            rw [hdw] at this
            omega
          rw [ih (b :: l'') hlen]
          have hne : collapseRuns (b :: l'') ≠ [] := collapseRuns_ne_nil (by simp)
          rcases hcb : collapseRuns (b :: l'') with _ | ⟨e, es⟩
          · exact absurd hcb hne
          · rw [List.getLast?_cons_cons]
            by_cases hend : (e :: es).getLast? = some '-'
            · simp [hend]
            · simp [hend]

/-! ### stripEnds structure -/

lemma stripEnds_cons_pos {p : Char → Bool} {c : Char} (hc : p c = true)
    (l : List Char) : stripEnds p (c :: l) = stripEnds p l := by
  unfold stripEnds
  rw [List.dropWhile_cons_of_pos hc]

lemma stripEnds_snoc_pos {p : Char → Bool} {c : Char} (hc : p c = true)
    (l : List Char) : stripEnds p (l ++ [c]) = stripEnds p l := by
  unfold stripEnds
  rw [List.dropWhile_append]
  rcases hdw : l.dropWhile p with _ | ⟨b, l'⟩
  · simp [List.dropWhile_cons, hc]
  · simp only [List.isEmpty_cons, if_false, Bool.false_eq_true]
    rw [List.reverse_append]
    simp only [List.reverse_cons, List.reverse_nil, List.nil_append,
      List.singleton_append]
    rw [List.dropWhile_cons_of_pos hc]

lemma hyphen_pred_hyphen : (fun c : Char => decide (c = '-')) '-' = true := by decide

/-- `stripEnds` after the hyphen-or-not append of `collapseRuns_snoc_nonalnum`
collapses back. -/
lemma stripEnds_hyphenSnoc (x : List Char) :
    stripEnds (fun c => c = '-')
      (if x.getLast? = some '-' then x else x ++ ['-']) =
    stripEnds (fun c => c = '-') x := by
  by_cases h : x.getLast? = some '-'
  · rw [if_pos h]
  · rw [if_neg h, stripEnds_snoc_pos hyphen_pred_hyphen]

/-- Dropping a leading maximal non-alphanumeric run before collapsing does not
change the trimmed collapsed form. -/
lemma stripCollapse_dropRun (l : List Char) :
    stripEnds (fun c => c = '-')
      (collapseRuns (l.dropWhile fun d => !isSlugAlnum d)) =
    stripEnds (fun c => c = '-') (collapseRuns l) := by
  match l with
  | [] => rfl
  | d :: r =>
    by_cases hd : isSlugAlnum d = true
    · rw [List.dropWhile_cons_of_neg (by simp [hd])]
    · have hd' : isSlugAlnum d = false := Bool.eq_false_iff.mpr hd
      rw [List.dropWhile_cons_of_pos (by simp [hd']),
        collapseRuns_cons_neg _ hd', stripEnds_cons_pos hyphen_pred_hyphen]

/-- Prepending one non-alphanumeric character does not change the trimmed
collapsed form. -/
lemma stripCollapse_cons_nonalnum {c : Char} (hc : isSlugAlnum c = false)
    (l : List Char) :
    stripEnds (fun c => c = '-') (collapseRuns (c :: l)) =
    stripEnds (fun c => c = '-') (collapseRuns l) := by
  rw [collapseRuns_cons_neg _ hc, stripEnds_cons_pos hyphen_pred_hyphen,
    stripCollapse_dropRun]

/-- Appending one non-alphanumeric character does not change the trimmed
collapsed form. -/
lemma stripCollapse_snoc_nonalnum {c : Char} (hc : isSlugAlnum c = false)
    (l : List Char) :
    stripEnds (fun c => c = '-') (collapseRuns (l ++ [c])) =
    stripEnds (fun c => c = '-') (collapseRuns l) := by
  rw [collapseRuns_snoc_nonalnum hc l.length l (le_refl _), stripEnds_hyphenSnoc]

/-- Dropping any leading characters from a class contained in the
non-alphanumerics does not change the trimmed collapsed form. -/
lemma stripCollapse_dropWhile {p : Char → Bool}
    (hp : ∀ c, p c = true → isSlugAlnum c = false) (l : List Char) :
    stripEnds (fun c => c = '-') (collapseRuns (l.dropWhile p)) =
    stripEnds (fun c => c = '-') (collapseRuns l) := by
  induction l with
  | nil => rfl
  | cons c r ih =>
    by_cases hc : p c = true
    · rw [List.dropWhile_cons_of_pos hc, ih, stripCollapse_cons_nonalnum (hp c hc)]
    · rw [List.dropWhile_cons_of_neg hc]

/-- Appending any suffix of characters from a class contained in the
non-alphanumerics does not change the trimmed collapsed form. -/
lemma stripCollapse_append_nonalnum (m : List Char) :
    ∀ s : List Char, (∀ c ∈ s, isSlugAlnum c = false) →
      stripEnds (fun c => c = '-') (collapseRuns (m ++ s)) =
      stripEnds (fun c => c = '-') (collapseRuns m) := by
  intro s
  induction s using List.reverseRecOn with
  | nil => simp
  | append_singleton s' c ih =>
    intro hall
    have hc : isSlugAlnum c = false := hall c (by simp)
    rw [← List.append_assoc, stripCollapse_snoc_nonalnum hc (m ++ s'),
      ih fun d hd => hall d (by simp [hd])]

/-! ### slugify source/spec equivalence -/

lemma map_pyToLower_dropWhile (x : List Char) :
    (x.dropWhile isPySpace).map pyToLower =
      (x.map pyToLower).dropWhile isPySpace := by
  rw [List.dropWhile_map]
  have hp : (isPySpace ∘ pyToLower) = isPySpace := funext isPySpace_pyToLower
  rw [hp]

lemma map_pyToLower_stripEnds (l : List Char) :
    (stripEnds isPySpace l).map pyToLower =
      stripEnds isPySpace (l.map pyToLower) := by
  unfold stripEnds
  rw [List.map_reverse, map_pyToLower_dropWhile, List.map_reverse,
    map_pyToLower_dropWhile]

lemma dropWhile_eq_stripEnds_append (p : Char → Bool) (l : List Char) :
    ∃ s : List Char, l.dropWhile p = stripEnds p l ++ s ∧ ∀ c ∈ s, p c = true := by
  refine ⟨(((l.dropWhile p).reverse).takeWhile p).reverse, ?_, ?_⟩
  · unfold stripEnds
    rw [← List.reverse_append, List.takeWhile_append_dropWhile,
      List.reverse_reverse]
  · intro c hc
    rw [List.mem_reverse] at hc
    exact List.mem_takeWhile_imp hc

lemma slugChars_eq_spec (l : List Char) : slugChars l = slugCharsSpec l := by
  unfold slugChars slugCharsSpec
  have hmap : (stripEnds isPySpace l).map pyToLower =
      stripEnds isPySpace (l.map pyToLower) := map_pyToLower_stripEnds l
  obtain ⟨s, hs, hsp⟩ := dropWhile_eq_stripEnds_append isPySpace (l.map pyToLower)
  have hkey : stripEnds (fun c => c = '-')
      (collapseRuns ((stripEnds isPySpace l).map pyToLower)) =
      stripEnds (fun c => c = '-') (collapseRuns (l.map pyToLower)) := by
    rw [hmap]
    calc stripEnds (fun c => c = '-')
          (collapseRuns (stripEnds isPySpace (l.map pyToLower)))
        = stripEnds (fun c => c = '-')
            (collapseRuns (stripEnds isPySpace (l.map pyToLower) ++ s)) := by
          rw [stripCollapse_append_nonalnum _ s
            fun c hc => not_isSlugAlnum_of_isPySpace (hsp c hc)]
      _ = stripEnds (fun c => c = '-')
            (collapseRuns ((l.map pyToLower).dropWhile isPySpace)) := by rw [hs]
      _ = stripEnds (fun c => c = '-') (collapseRuns (l.map pyToLower)) :=
          stripCollapse_dropWhile (fun c => not_isSlugAlnum_of_isPySpace) _
  dsimp only
  rw [hkey]

/-- All-non-alphanumeric input collapses to nothing after trimming. -/
lemma stripCollapse_eq_nil {l : List Char}
    (h : ∀ c ∈ l, isSlugAlnum c = false) :
    stripEnds (fun c => c = '-') (collapseRuns l) = [] := by
  have := stripCollapse_append_nonalnum [] l h
  rw [List.nil_append] at this
  rw [this, collapseRuns_nil]
  rfl

/-- **C6.**  `slugify` lower-cases its input, replaces every maximal run of
characters outside `[a-z0-9]` by a single hyphen, trims leading and trailing
hyphens, and yields the literal `"unknown"` when the result would be empty —
in particular on any input without alphanumeric characters.  Stated as: the
source `slugify` (which additionally pre-strips whitespace) agrees with the
spec-worded `slugifySpec` on every input, and the all-non-alphanumeric case
produces `"unknown"`.  Determinism and purity are inherent: both sides are
Lean functions of the input string alone. -/
theorem slugify_eq_slugifySpec :
    (∀ s : String, slugify s = slugifySpec s) ∧
    (∀ s : String, (∀ c ∈ s.data, isSlugAlnum (pyToLower c) = false) →
      slugify s = "unknown") := by
  constructor
  · intro s
    unfold slugify slugifySpec
    rw [slugChars_eq_spec]
  · intro s h
    unfold slugify
    rw [slugChars_eq_spec]
    unfold slugCharsSpec
    simp only
    rw [stripCollapse_eq_nil]
    · rfl
    · intro c hc
      rw [List.mem_map] at hc
      obtain ⟨d, hd, rfl⟩ := hc
      exact h d hd

/-- Witness for C6 at concrete inputs: a mixed-case punctuated input and an
input with no alphanumeric characters. -/
theorem slugify_eq_slugifySpec_witness :
    slugify "Pixel 8 Pro-bezel@2x" = slugifySpec "Pixel 8 Pro-bezel@2x" ∧
    slugify "@!  !" = "unknown" := by
  constructor
  · exact slugify_eq_slugifySpec.1 "Pixel 8 Pro-bezel@2x"
  · exact slugify_eq_slugifySpec.2 "@!  !" (by decide)

/-! ### slugify idempotence -/

/-- Adjacent characters of a collapsed slug are never both non-alphanumeric. -/
def slugAdj (a b : Char) : Prop :=
  isSlugAlnum a = true ∨ isSlugAlnum b = true

lemma slugAdj_flip : flip slugAdj = slugAdj := by
  funext a b
  exact propext ⟨fun h => h.symm, fun h => h.symm⟩

lemma head_dropWhile_false {α : Type} {p : α → Bool} :
    ∀ {l : List α} {d : α} {r : List α}, l.dropWhile p = d :: r → p d = false := by
  intro l
  induction l with
  | nil => intro d r h; simp at h
  | cons a t ih =>
    intro d r h
    rw [List.dropWhile_cons] at h
    split at h
    · exact ih h
    · next hpa =>
      cases h
      exact Bool.eq_false_iff.mpr hpa

lemma mem_collapseRuns :
    ∀ n (l : List Char), l.length ≤ n →
      ∀ c ∈ collapseRuns l, isSlugAlnum c = true ∨ c = '-' := by
  intro n
  induction n with
  | zero =>
    intro l hl
    have : l = [] := List.length_eq_zero.mp (Nat.le_zero.mp hl)
    subst this
    rw [collapseRuns_nil]
    intro c hc
    simp at hc
  | succ n ih =>
    intro l hl
    match l with
    | [] =>
      rw [collapseRuns_nil]
      intro c hc
      simp at hc
    | a :: l' =>
      simp only [List.length_cons, Nat.succ_le_succ_iff] at hl
      by_cases ha : isSlugAlnum a = true
      · rw [collapseRuns_cons_pos _ ha]
        intro c hc
        rcases List.mem_cons.mp hc with rfl | hc
        · exact Or.inl ha
        · exact ih l' hl c hc
      · rw [collapseRuns_cons_neg _ (Bool.eq_false_iff.mpr ha)]
        intro c hc
        rcases List.mem_cons.mp hc with rfl | hc
        · exact Or.inr rfl
        · have hlen : (l'.dropWhile fun d => !isSlugAlnum d).length ≤ n := by
            have := List.Sublist.length_le
              (List.dropWhile_sublist (l := l') (fun d => !isSlugAlnum d))
            omega
          exact ih _ hlen c hc

lemma chain'_collapseRuns :
    ∀ n (l : List Char), l.length ≤ n → List.Chain' slugAdj (collapseRuns l) := by
  intro n
  induction n with
  | zero =>
    intro l hl
    have : l = [] := List.length_eq_zero.mp (Nat.le_zero.mp hl)
    subst this
    rw [collapseRuns_nil]
    exact List.chain'_nil
  | succ n ih =>
    intro l hl
    match l with
    | [] =>
      rw [collapseRuns_nil]
      exact List.chain'_nil
    | a :: l' =>
      simp only [List.length_cons, Nat.succ_le_succ_iff] at hl
      by_cases ha : isSlugAlnum a = true
      · rw [collapseRuns_cons_pos _ ha]
        rw [List.chain'_cons']
        exact ⟨fun y _ => Or.inl ha, ih l' hl⟩
      · rw [collapseRuns_cons_neg _ (Bool.eq_false_iff.mpr ha)]
        have hlen : (l'.dropWhile fun d => !isSlugAlnum d).length ≤ n := by
          have := List.Sublist.length_le
            (List.dropWhile_sublist (l := l') (fun d => !isSlugAlnum d))
          omega
        rw [List.chain'_cons']
        refine ⟨?_, ih _ hlen⟩
        intro y hy
        rcases hdw : l'.dropWhile (fun d => !isSlugAlnum d) with _ | ⟨d, r⟩
        · rw [hdw, collapseRuns_nil] at hy
          simp at hy
        · have hd : isSlugAlnum d = true := by
            have := head_dropWhile_false hdw
            simpa using this
          rw [hdw, collapseRuns_cons_pos _ hd] at hy
          simp only [List.head?_cons, Option.mem_def, Option.some.injEq] at hy
          subst hy
          exact Or.inr hd

lemma stripEnds_sublist (p : Char → Bool) (l : List Char) :
    (stripEnds p l).Sublist l := by
  unfold stripEnds
  have h1 : (l.dropWhile p).Sublist l := (List.dropWhile_suffix p).sublist
  have h2 : ((l.dropWhile p).reverse.dropWhile p).Sublist (l.dropWhile p).reverse :=
    (List.dropWhile_suffix p).sublist
  have h3 : ((l.dropWhile p).reverse.dropWhile p).reverse.Sublist (l.dropWhile p) := by
    apply List.reverse_sublist.mp
    rw [List.reverse_reverse]
    exact h2
  exact h3.trans h1

lemma chain'_stripEnds {p : Char → Bool} {l : List Char}
    (h : List.Chain' slugAdj l) : List.Chain' slugAdj (stripEnds p l) := by
  unfold stripEnds
  have h1 : List.Chain' slugAdj (l.dropWhile p) :=
    h.suffix (List.dropWhile_suffix p)
  have h2 : List.Chain' slugAdj (l.dropWhile p).reverse := by
    rw [List.chain'_reverse, slugAdj_flip]
    exact h1
  have h3 : List.Chain' slugAdj ((l.dropWhile p).reverse.dropWhile p) :=
    h2.suffix (List.dropWhile_suffix p)
  rw [List.chain'_reverse, slugAdj_flip]
  exact h3

lemma getLast?_stripEnds_false {p : Char → Bool} {l : List Char} {c : Char}
    (h : (stripEnds p l).getLast? = some c) : p c = false := by
  unfold stripEnds at h
  rw [List.getLast?_reverse] at h
  rcases hdw : (l.dropWhile p).reverse.dropWhile p with _ | ⟨d, r⟩
  · rw [hdw] at h
    simp at h
  · rw [hdw] at h
    simp only [List.head?_cons, Option.some.injEq] at h
    subst h
    exact head_dropWhile_false hdw

lemma head?_stripEnds_false {p : Char → Bool} {l : List Char} {c : Char}
    (h : (stripEnds p l).head? = some c) : p c = false := by
  unfold stripEnds at h
  rw [List.head?_reverse] at h
  rcases hdw : (l.dropWhile p).reverse.dropWhile p with _ | ⟨d, r⟩
  · rw [hdw] at h
    simp at h
  · rw [hdw] at h
    have hsuff : (d :: r) <:+ (l.dropWhile p).reverse := by
      rw [← hdw]
      exact List.dropWhile_suffix p
    obtain ⟨t, ht⟩ := hsuff
    have hlast : ((d :: r) : List Char).getLast? = (l.dropWhile p).reverse.getLast? := by
      rw [← ht, List.getLast?_append]
      rcases hgl : ((d :: r) : List Char).getLast? with _ | e
      · exact absurd hgl (by simp [List.getLast?_cons])
      · rfl
    rw [hlast, List.getLast?_reverse] at h
    rcases hdw2 : l.dropWhile p with _ | ⟨d2, r2⟩
    · rw [hdw2] at h
      simp at h
    · rw [hdw2] at h
      simp only [List.head?_cons, Option.some.injEq] at h
      subst h
      exact head_dropWhile_false hdw2

lemma dropWhile_eq_self_of_head {p : Char → Bool} {l : List Char}
    (h : ∀ c, l.head? = some c → p c = false) : l.dropWhile p = l := by
  rcases l with _ | ⟨a, t⟩
  · rfl
  · rw [List.dropWhile_cons_of_neg]
    rw [h a rfl]
    simp

lemma stripEnds_eq_self {p : Char → Bool} {l : List Char}
    (hh : ∀ c, l.head? = some c → p c = false)
    (hl : ∀ c, l.getLast? = some c → p c = false) : stripEnds p l = l := by
  unfold stripEnds
  rw [dropWhile_eq_self_of_head hh]
  have : l.reverse.dropWhile p = l.reverse := by
    apply dropWhile_eq_self_of_head
    intro c hc
    rw [List.head?_reverse] at hc
    exact hl c hc
  rw [this, List.reverse_reverse]

lemma map_eq_self_of {f : Char → Char} {l : List Char}
    (h : ∀ c ∈ l, f c = c) : l.map f = l := by
  induction l with
  | nil => rfl
  | cons a t ih =>
    rw [List.map_cons, h a (by simp), ih fun c hc => h c (by simp [hc])]

lemma collapseRuns_eq_self {l : List Char}
    (hmem : ∀ c ∈ l, isSlugAlnum c = true ∨ c = '-')
    (hchain : List.Chain' slugAdj l) : collapseRuns l = l := by
  induction l with
  | nil => exact collapseRuns_nil
  | cons a t ih =>
    rcases hmem a (by simp) with ha | ha
    · rw [collapseRuns_cons_pos _ ha,
        ih (fun c hc => hmem c (by simp [hc])) hchain.tail]
    · subst ha
      rw [collapseRuns_cons_neg _ isSlugAlnum_hyphen]
      rcases t with _ | ⟨d, r⟩
      · simp [collapseRuns_nil]
      · have hd : isSlugAlnum d = true := by
          rcases (List.chain'_cons.mp hchain).1 with h | h
          · exact absurd h (by simp [isSlugAlnum_hyphen])
          · exact h
        rw [List.dropWhile_cons_of_neg (by simp [hd]),
          ih (fun c hc => hmem c (by simp [hc])) hchain.tail]

lemma not_isPySpace_of_slugChar {c : Char}
    (h : isSlugAlnum c = true ∨ c = '-') : isPySpace c = false := by
  rw [Bool.eq_false_iff]
  intro hs
  have hmem := isPySpace_toNat hs
  simp only [List.mem_cons, List.not_mem_nil, or_false] at hmem
  rcases h with h | h
  · rw [isSlugAlnum_iff] at h
    omega
  · subst h
    revert hmem
    decide

/-- A list of lower-case alphanumerics and isolated interior hyphens is a
fixed point of the whole slug pipeline. -/
lemma slugChars_fixed {x : List Char}
    (hmem : ∀ c ∈ x, isSlugAlnum c = true ∨ c = '-')
    (hchain : List.Chain' slugAdj x)
    (hh : x.head? ≠ some '-')
    (hl : x.getLast? ≠ some '-')
    (hne : x ≠ []) : slugChars x = x := by
  unfold slugChars
  dsimp only
  have h1 : stripEnds isPySpace x = x := by
    apply stripEnds_eq_self
    · intro c hc
      exact not_isPySpace_of_slugChar (hmem c (List.mem_of_mem_head? (by simp [hc])))
    · intro c hc
      exact not_isPySpace_of_slugChar (hmem c (List.mem_of_mem_getLast? (by simp [hc])))
  rw [h1]
  have h2 : x.map pyToLower = x :=
    map_eq_self_of fun c hc => pyToLower_eq_self (hmem c hc)
  rw [h2]
  have h3 : collapseRuns x = x := collapseRuns_eq_self hmem hchain
  rw [h3]
  have h4 : stripEnds (fun c => c = '-') x = x := by
    apply stripEnds_eq_self
    · intro c hc
      simp only [decide_eq_false_iff_not]
      intro hcc
      subst hcc
      exact hh hc
    · intro c hc
      simp only [decide_eq_false_iff_not]
      intro hcc
      subst hcc
      exact hl hc
  rw [h4, if_neg hne]

lemma collapseRuns_eq_self_of_alnum {l : List Char}
    (h : ∀ c ∈ l, isSlugAlnum c = true) : collapseRuns l = l := by
  induction l with
  | nil => exact collapseRuns_nil
  | cons a t ih =>
    rw [collapseRuns_cons_pos _ (h a (by simp)), ih fun c hc => h c (by simp [hc])]

lemma chain'_unknown : List.Chain' slugAdj "unknown".data := by
  have h1 : collapseRuns "unknown".data = "unknown".data :=
    collapseRuns_eq_self_of_alnum (by decide)
  have h2 := chain'_collapseRuns "unknown".data.length "unknown".data (le_refl _)
  rw [h1] at h2
  exact h2

lemma slugChars_idem (l : List Char) : slugChars (slugChars l) = slugChars l := by
  have hform : slugChars l = "unknown".data ∨
      (slugChars l = stripEnds (fun c => c = '-')
        (collapseRuns ((stripEnds isPySpace l).map pyToLower)) ∧
       slugChars l ≠ []) := by
    unfold slugChars
    dsimp only
    split
    · exact Or.inl rfl
    · next hv =>
      refine Or.inr ⟨rfl, hv⟩
  rcases hform with h | ⟨h, hne⟩
  · rw [h]
    apply slugChars_fixed
    · decide
    · exact chain'_unknown
    · decide
    · decide
    · decide
  · rw [h] at hne
    rw [h]
    apply slugChars_fixed
    · intro c hc
      have hmemX : c ∈ collapseRuns ((stripEnds isPySpace l).map pyToLower) :=
        (stripEnds_sublist _ _).subset hc
      exact mem_collapseRuns _ _ (le_refl _) c hmemX
    · exact chain'_stripEnds (chain'_collapseRuns _ _ (le_refl _))
    · intro hh
      have := head?_stripEnds_false hh
      simp at this
    · intro hl
      have := getLast?_stripEnds_false hl
      simp at this
    · exact hne

/-- **C10.**  `slugify` is idempotent: applying it to its own output returns
the output unchanged, since every result — including the fallback
`"unknown"` — consists only of lower-case alphanumerics and single interior
hyphens with no leading or trailing hyphen. -/
theorem slugify_idempotent (s : String) : slugify (slugify s) = slugify s := by
  show String.mk (slugChars (slugChars s.data)) = String.mk (slugChars s.data)
  rw [slugChars_idem]

/-! ## path_has_shadow (catalog.py lines 15, 29–31) -/

/-- `SHADOW_DIR_NAMES` from the source: the closed set of recognized
shadow-directory names. -/
def SHADOW_DIR_NAMES : List String := ["device with shadow", "device with shadows"]

/-- Python `str.lower` on a whole string (ASCII case mapping). -/
def pyLowerString (s : String) : String := String.mk (s.data.map pyToLower)

/-- `path_has_shadow(path)`: true if any path segment, lower-cased, is a
member of `SHADOW_DIR_NAMES`.  A `Path` is modelled by its list of
segments (`path.parts`). -/
def path_has_shadow (parts : List String) : Bool :=
  parts.any fun part => decide (pyLowerString part ∈ SHADOW_DIR_NAMES)

/-- **C7.**  `has_shadow` is true for an asset iff some path segment,
compared case-insensitively as a whole segment, equals one of the recognized
shadow-directory names — membership in the closed two-element set, not a
substring match: the hyphenated segment `"device-with-shadow"` does not set
the flag, while the segment `"Device With Shadow"` (any case) does. -/
theorem path_has_shadow_iff_segment :
    (∀ parts : List String, path_has_shadow parts = true ↔
      ∃ part ∈ parts, pyLowerString part = "device with shadow" ∨
        pyLowerString part = "device with shadows") ∧
    path_has_shadow ["bezels", "Device With Shadow"] = true ∧
    path_has_shadow ["bezels", "device-with-shadow"] = false := by
  refine ⟨?_, ?_, ?_⟩
  · intro parts
    unfold path_has_shadow SHADOW_DIR_NAMES
    rw [List.any_eq_true]
    constructor
    · rintro ⟨part, hmem, hdec⟩
      rw [decide_eq_true_eq] at hdec
      simp only [List.mem_cons, List.not_mem_nil, or_false] at hdec
      exact ⟨part, hmem, hdec⟩
    · rintro ⟨part, hmem, hdec⟩
      refine ⟨part, hmem, ?_⟩
      rw [decide_eq_true_eq]
      simp only [List.mem_cons, List.not_mem_nil, or_false]
      exact hdec
  · decide
  · decide

/-! ## Catalog building (catalog.py lines 114–152)

`describe_png` performs I/O (`stat`, `Image.open`); `build_catalog` invokes
it once per discovered asset.  The embedding abstracts the per-asset work
into a collaborator function `describe : Asset → Except AssetError
AssetRecord` (a decode failure for one asset propagates, as in the source),
and models `devices_root.exists()` as a boolean input. -/

/-- One discovered asset: `(category, device name, file path)` as yielded by
`iter_device_pngs`. -/
def Asset : Type := String × String × String

/-- The flattened metadata record produced by `describe_png`
(field names follow the emitted dictionary). -/
structure AssetRecord where
  category : String
  name : String
  has_shadow : Bool
  slug : String
  relative_path : String
  image_width : Nat
  image_height : Nat
  viewport_origin : ℤ × ℤ
  viewport_size : ℤ × ℤ
  size_bytes : Nat

/-- The sort key of `build_catalog`:
`(entry["category"], entry["name"], entry["relative_path"])`. -/
def sortKey (r : AssetRecord) : String × String × String :=
  (r.category, r.name, r.relative_path)

/-- The sort key, packed into a lexicographic order. -/
def lexKey (r : AssetRecord) : Lex (String × Lex (String × String)) :=
  toLex (r.category, toLex (r.name, r.relative_path))

/-- Ascending lexicographic comparison of two records by
`(category, name, relative_path)` (Python tuple comparison). -/
def recordLe (r s : AssetRecord) : Prop := lexKey r ≤ lexKey s

/-- Strict version of `recordLe`. -/
def recordLt (r s : AssetRecord) : Prop := lexKey r < lexKey s

instance : DecidableRel recordLe := fun a b =>
  inferInstanceAs (Decidable (lexKey a ≤ lexKey b))

instance : IsTotal AssetRecord recordLe :=
  ⟨fun a b => le_total (lexKey a) (lexKey b)⟩

instance : IsTrans AssetRecord recordLe :=
  ⟨fun _ _ _ hab hbc => le_trans hab hbc⟩

/-- `files.sort(key=...)`: a stable comparison sort by the published key. -/
def sortFiles (files : List AssetRecord) : List AssetRecord :=
  List.insertionSort recordLe files

/-- Per-asset collaborator failures (e.g. a `DecodeError` from `Image.open`). -/
inductive AssetError : Type
  | decodeError : AssetError

/-- Failures of the whole catalog build. -/
inductive BuildError : Type
  | rootNotFound : BuildError
  | assetFailed : AssetError → BuildError

/-- The per-asset loop of `build_catalog`: one `describe_png` call per asset,
any failure aborting the run. -/
def describeAll (describe : Asset → Except AssetError AssetRecord) :
    List Asset → Except BuildError (List AssetRecord)
  | [] => Except.ok []
  | a :: rest =>
    match describe a with
    | Except.error e => Except.error (BuildError.assetFailed e)
    | Except.ok r =>
      match describeAll describe rest with
      | Except.error err => Except.error err
      | Except.ok rs => Except.ok (r :: rs)

/-- The generated catalog structure. -/
structure Catalog where
  generated_at : String
  files_count : Nat
  files : List AssetRecord

/-- `build_catalog(devices_root, repo_root)`: fail if the devices root does
not exist, else describe every asset and sort the records by
`(category, name, relative_path)`. -/
def build_catalog (rootExists : Bool) (generatedAt : String)
    (describe : Asset → Except AssetError AssetRecord) (assets : List Asset) :
    Except BuildError Catalog :=
  if !rootExists then Except.error BuildError.rootNotFound
  else
    match describeAll describe assets with
    | Except.error e => Except.error e
    | Except.ok files =>
      let sorted := sortFiles files
      Except.ok { generated_at := generatedAt, files_count := sorted.length,
                  files := sorted }

/-! ### Catalog ordering and error behaviour -/

lemma lexKey_eq_iff {a b : AssetRecord} :
    lexKey a = lexKey b ↔ sortKey a = sortKey b := by
  unfold lexKey sortKey
  constructor
  · intro h
    have h1 := toLex.injective h
    rw [Prod.mk.injEq] at h1
    have h2 := toLex.injective h1.2
    rw [Prod.mk.injEq] at h2
    rw [Prod.mk.injEq, Prod.mk.injEq]
    exact ⟨h1.1, h2.1, h2.2⟩
  · intro h
    rw [Prod.mk.injEq, Prod.mk.injEq] at h
    rw [h.1, h.2.1, h.2.2]

instance : IsAntisymm AssetRecord recordLt :=
  ⟨fun _ _ h1 h2 => (lt_asymm h1 h2).elim⟩

lemma describeAll_error_ne_root {d : Asset → Except AssetError AssetRecord}
    {e : BuildError} :
    ∀ {assets : List Asset}, describeAll d assets = Except.error e →
      e ≠ BuildError.rootNotFound := by
  intro assets
  induction assets with
  | nil => intro h; simp [describeAll] at h
  | cons a rest ih =>
    intro h
    unfold describeAll at h
    cases hda : d a with
    | error ae =>
      rw [hda] at h
      injection h with he
      subst he
      intro hc
      cases hc
    | ok r =>
      rw [hda] at h
      cases hdr : describeAll d rest with
      | error err =>
        rw [hdr] at h
        injection h with he
        subst he
        exact ih hdr
      | ok rs =>
        rw [hdr] at h
        cases h

lemma describeAll_all_ok {d : Asset → Except AssetError AssetRecord} :
    ∀ assets : List Asset, (∀ a ∈ assets, ∃ r, d a = Except.ok r) →
      ∃ rs, describeAll d assets = Except.ok rs := by
  intro assets
  induction assets with
  | nil => intro _; exact ⟨[], rfl⟩
  | cons a rest ih =>
    intro h
    obtain ⟨r, hr⟩ := h a (by simp)
    obtain ⟨rs, hrs⟩ := ih fun x hx => h x (by simp [hx])
    refine ⟨r :: rs, ?_⟩
    unfold describeAll
    rw [hr, hrs]

/-- **C8.**  The catalog's `files` sequence is always sorted ascending
lexicographically by `(category, name, relative_path)`, and — because
distinct assets have distinct keys — the sorted output is independent of the
order in which discovery yielded the assets. -/
theorem catalog_files_sorted :
    (∀ (rootExists : Bool) (now : String)
        (d : Asset → Except AssetError AssetRecord) (assets : List Asset)
        (c : Catalog), build_catalog rootExists now d assets = Except.ok c →
        List.Sorted recordLe c.files) ∧
    (∀ l₁ l₂ : List AssetRecord, l₁.Perm l₂ → (l₁.map sortKey).Nodup →
        sortFiles l₁ = sortFiles l₂) := by
  constructor
  · intro rootExists now d assets c hok
    cases rootExists with
    | false => simp [build_catalog] at hok
    | true =>
      unfold build_catalog at hok
      simp only [Bool.not_true, Bool.false_eq_true, if_false] at hok
      cases hda : describeAll d assets with
      | error e =>
        rw [hda] at hok
        cases hok
      | ok files =>
        rw [hda] at hok
        injection hok with hc
        subst hc
        exact List.sorted_insertionSort recordLe files
  · intro l₁ l₂ hperm hnd
    have hsymm : ∀ {x y : AssetRecord},
        sortKey x ≠ sortKey y → sortKey y ≠ sortKey x := fun h => fun he => h he.symm
    have hs1 : List.Sorted recordLe (sortFiles l₁) :=
      List.sorted_insertionSort recordLe l₁
    have hs2 : List.Sorted recordLe (sortFiles l₂) :=
      List.sorted_insertionSort recordLe l₂
    have hp : (sortFiles l₁).Perm (sortFiles l₂) :=
      (List.perm_insertionSort recordLe l₁).trans
        (hperm.trans (List.perm_insertionSort recordLe l₂).symm)
    have hne1 : List.Pairwise (fun a b => sortKey a ≠ sortKey b) l₁ :=
      List.pairwise_map.mp hnd
    have hnsort1 : List.Pairwise (fun a b => sortKey a ≠ sortKey b) (sortFiles l₁) :=
      (List.Perm.pairwise_iff hsymm (List.perm_insertionSort recordLe l₁)).mpr hne1
    have hnsort2 : List.Pairwise (fun a b => sortKey a ≠ sortKey b) (sortFiles l₂) :=
      (List.Perm.pairwise_iff hsymm hp).mp hnsort1
    have hstrict : ∀ {a b : AssetRecord},
        recordLe a b ∧ sortKey a ≠ sortKey b → recordLt a b := by
      intro a b ⟨hle, hne⟩
      exact lt_of_le_of_ne hle fun he => hne (lexKey_eq_iff.mp he)
    have hlt1 : List.Sorted recordLt (sortFiles l₁) :=
      (hs1.and hnsort1).imp hstrict
    have hlt2 : List.Sorted recordLt (sortFiles l₂) :=
      (hs2.and hnsort2).imp hstrict
    exact List.eq_of_perm_of_sorted hp hlt1 hlt2

/-- Witness for C8: an empty build succeeds with a (trivially) sorted `files`
sequence, and sorting a concrete one-record list is order-independent. -/
theorem catalog_files_sorted_witness :
    List.Sorted recordLe
      (Catalog.mk "2024-01-01T00:00:00+00:00" 0 []).files ∧
    sortFiles [] = sortFiles [] := by
  constructor
  · exact catalog_files_sorted.1 true "2024-01-01T00:00:00+00:00"
      (fun _ => Except.error AssetError.decodeError) []
      (Catalog.mk "2024-01-01T00:00:00+00:00" 0 []) rfl
  · exact catalog_files_sorted.2 [] [] (List.Perm.refl []) (by simp)

/-- **C9.**  `build_catalog` fails with the root-not-found error exactly when
the devices root does not exist; the check happens before any asset is
processed (the result when the root is missing does not depend on the
per-asset collaborator at all), and when the root exists the build adds no
per-asset failure of its own: it succeeds whenever every collaborator call
succeeds. -/
theorem build_catalog_root_error :
    (∀ (rootExists : Bool) (now : String)
        (d : Asset → Except AssetError AssetRecord) (assets : List Asset),
        build_catalog rootExists now d assets =
            Except.error BuildError.rootNotFound ↔ rootExists = false) ∧
    (∀ (now : String) (d₁ d₂ : Asset → Except AssetError AssetRecord)
        (assets : List Asset),
        build_catalog false now d₁ assets = build_catalog false now d₂ assets) ∧
    (∀ (now : String) (d : Asset → Except AssetError AssetRecord)
        (assets : List Asset), (∀ a ∈ assets, ∃ r, d a = Except.ok r) →
        ∃ c, build_catalog true now d assets = Except.ok c) := by
  refine ⟨?_, ?_, ?_⟩
  · intro rootExists now d assets
    cases rootExists with
    | false => simp [build_catalog]
    | true =>
      unfold build_catalog
      simp only [Bool.not_true, Bool.false_eq_true, if_false]
      constructor
      · intro h
        cases hda : describeAll d assets with
        | error e =>
          rw [hda] at h
          injection h with he
          exact absurd he (describeAll_error_ne_root hda)
        | ok files =>
          rw [hda] at h
          cases h
      · intro h
        cases h
  · intro now d₁ d₂ assets
    simp [build_catalog]
  · intro now d assets hok
    obtain ⟨rs, hrs⟩ := describeAll_all_ok assets hok
    refine ⟨Catalog.mk now (sortFiles rs).length (sortFiles rs), ?_⟩
    unfold build_catalog
    simp only [Bool.not_true, Bool.false_eq_true, if_false]
    rw [hrs]

/-- Witness for C9 at concrete inputs: a missing root fails with
root-not-found whatever the collaborator would do, and an existing root with
no assets succeeds. -/
theorem build_catalog_root_error_witness :
    build_catalog false "t" (fun _ => Except.error AssetError.decodeError) [] =
        Except.error BuildError.rootNotFound ∧
    ∃ c, build_catalog true "t"
        (fun _ => Except.error AssetError.decodeError) [] = Except.ok c := by
  constructor
  · exact (build_catalog_root_error.1 false "t"
      (fun _ => Except.error AssetError.decodeError) []).mpr rfl
  · exact build_catalog_root_error.2.2 "t"
      (fun _ => Except.error AssetError.decodeError) [] (by simp)

/-! ## compute_viewport (catalog.py lines 16–18, 52–111)

A decoded image is its width, height and optional alpha channel; a binary
PIL mask (`mode "L"` with values 0/255) is a boolean pixel function together
with its dimensions.  Pixels outside the stated dimensions are irrelevant:
every operation only inspects in-range pixels. -/

/-- `ALPHA_THRESHOLD`: pixels with alpha at most this are near-transparent. -/
def ALPHA_THRESHOLD : Nat := 10

/-- `SOLID_ALPHA_THRESHOLD`: pixels with alpha at least this are solid. -/
def SOLID_ALPHA_THRESHOLD : Nat := 200

/-- `MAX_MASK_DIMENSION`: downscale cap for the flood-fill mask. -/
def MAX_MASK_DIMENSION : Nat := 2000

/-- A decoded raster image: dimensions plus optional alpha channel giving
each pixel's 0–255 opacity. -/
structure RasterImage where
  width : Nat
  height : Nat
  alpha : Option (Nat → Nat → Nat)

/-- A binary mask over a pixel grid. -/
structure Mask where
  width : Nat
  height : Nat
  px : Nat → Nat → Bool

/-- Column `x` contains a marked in-range pixel. -/
def Mask.colHas (m : Mask) (x : Nat) : Bool :=
  (List.range m.height).any fun y => m.px x y

/-- Row `y` contains a marked in-range pixel. -/
def Mask.rowHas (m : Mask) (y : Nat) : Bool :=
  (List.range m.width).any fun x => m.px x y

/-- Column `x` is in range and contains a marked pixel. -/
def Mask.colP (m : Mask) (x : Nat) : Prop := x < m.width ∧ m.colHas x = true

/-- Row `y` is in range and contains a marked pixel. -/
def Mask.rowP (m : Mask) (y : Nat) : Prop := y < m.height ∧ m.rowHas y = true

instance (m : Mask) : DecidablePred m.colP := fun x =>
  inferInstanceAs (Decidable (x < m.width ∧ m.colHas x = true))

instance (m : Mask) : DecidablePred m.rowP := fun y =>
  inferInstanceAs (Decidable (y < m.height ∧ m.rowHas y = true))

/-- The mask has some marked in-range pixel. -/
def Mask.occupied (m : Mask) : Bool :=
  (List.range m.width).any fun x => m.colHas x

lemma Mask.colP_iff {m : Mask} {x : Nat} :
    m.colP x ↔ x < m.width ∧ ∃ y, y < m.height ∧ m.px x y = true := by
  unfold Mask.colP Mask.colHas
  rw [List.any_eq_true]
  constructor
  · rintro ⟨hx, y, hy, hpy⟩
    exact ⟨hx, y, List.mem_range.mp hy, hpy⟩
  · rintro ⟨hx, y, hy, hpy⟩
    exact ⟨hx, y, List.mem_range.mpr hy, hpy⟩

lemma Mask.rowP_iff {m : Mask} {y : Nat} :
    m.rowP y ↔ y < m.height ∧ ∃ x, x < m.width ∧ m.px x y = true := by
  unfold Mask.rowP Mask.rowHas
  rw [List.any_eq_true]
  constructor
  · rintro ⟨hy, x, hx, hpx⟩
    exact ⟨hy, x, List.mem_range.mp hx, hpx⟩
  · rintro ⟨hy, x, hx, hpx⟩
    exact ⟨hy, x, List.mem_range.mpr hx, hpx⟩

lemma Mask.occupied_iff {m : Mask} :
    m.occupied = true ↔ ∃ x, m.colP x := by
  unfold Mask.occupied
  rw [List.any_eq_true]
  constructor
  · rintro ⟨x, hx, hcol⟩
    exact ⟨x, List.mem_range.mp hx, hcol⟩
  · rintro ⟨x, hx, hcol⟩
    exact ⟨x, List.mem_range.mpr hx, hcol⟩

lemma Mask.exists_col {m : Mask} (h : m.occupied = true) : ∃ x, m.colP x :=
  Mask.occupied_iff.mp h

lemma Mask.exists_row {m : Mask} (h : m.occupied = true) : ∃ y, m.rowP y := by
  obtain ⟨x, hx⟩ := Mask.exists_col h
  rw [Mask.colP_iff] at hx
  obtain ⟨hxw, y, hy, hpy⟩ := hx
  exact ⟨y, Mask.rowP_iff.mpr ⟨hy, x, hxw, hpy⟩⟩

lemma Mask.exists_col_rev {m : Mask} (h : m.occupied = true) :
    ∃ k, m.colP (m.width - 1 - k) := by
  obtain ⟨x, hx⟩ := Mask.exists_col h
  have hxw : x < m.width := hx.1
  refine ⟨m.width - 1 - x, ?_⟩
  have : m.width - 1 - (m.width - 1 - x) = x := by omega
  rw [this]
  exact hx

lemma Mask.exists_row_rev {m : Mask} (h : m.occupied = true) :
    ∃ k, m.rowP (m.height - 1 - k) := by
  obtain ⟨y, hy⟩ := Mask.exists_row h
  have hyh : y < m.height := hy.1
  refine ⟨m.height - 1 - y, ?_⟩
  have : m.height - 1 - (m.height - 1 - y) = y := by omega
  rw [this]
  exact hy

/-- `Image.getbbox()`: the tight bounding box `(left, upper, right, lower)`
of the marked region — `right` and `lower` exclusive — or `none` when the
mask is entirely unmarked. -/
def Mask.getbbox (m : Mask) : Option (Nat × Nat × Nat × Nat) :=
  if h : m.occupied = true then
    some (Nat.find (Mask.exists_col h), Nat.find (Mask.exists_row h),
      m.width - Nat.find (Mask.exists_col_rev h),
      m.height - Nat.find (Mask.exists_row_rev h))
  else none

lemma Mask.getbbox_eq_none_iff {m : Mask} :
    m.getbbox = none ↔ ∀ x, x < m.width → ∀ y, y < m.height → m.px x y = false := by
  unfold Mask.getbbox
  split
  · next h =>
    simp only [reduceCtorEq, false_iff]
    intro hall
    obtain ⟨x, hx⟩ := Mask.exists_col h
    rw [Mask.colP_iff] at hx
    obtain ⟨hxw, y, hy, hpy⟩ := hx
    rw [hall x hxw y hy] at hpy
    cases hpy
  · next h =>
    simp only [true_iff]
    intro x hx y hy
    by_contra hpx
    rw [Bool.not_eq_false] at hpx
    exact h (Mask.occupied_iff.mpr ⟨x, Mask.colP_iff.mpr ⟨hx, y, hy, hpx⟩⟩)

/-- Everything `getbbox` guarantees about a returned box: it is nonempty, it
lies inside the mask, every marked in-range pixel lies inside it, and each of
its four edges is attained by a marked pixel. -/
lemma Mask.getbbox_some_spec {m : Mask} {l t r b : Nat}
    (h : m.getbbox = some (l, t, r, b)) :
    (l < r ∧ t < b ∧ r ≤ m.width ∧ b ≤ m.height) ∧
    (∀ x, x < m.width → ∀ y, y < m.height → m.px x y = true →
      l ≤ x ∧ x < r ∧ t ≤ y ∧ y < b) ∧
    (m.colP l ∧ m.colP (r - 1) ∧ m.rowP t ∧ m.rowP (b - 1)) := by
  unfold Mask.getbbox at h
  split at h
  case isFalse => cases h
  case isTrue hocc =>
  rw [Option.some_inj, Prod.mk.injEq, Prod.mk.injEq, Prod.mk.injEq] at h
  obtain ⟨hl, ht, hr, hb⟩ := h
  set kx := Nat.find (Mask.exists_col_rev hocc) with hkx
  set ky := Nat.find (Mask.exists_row_rev hocc) with hky
  have hcl : m.colP l := hl ▸ Nat.find_spec (Mask.exists_col hocc)
  have hrt : m.rowP t := ht ▸ Nat.find_spec (Mask.exists_row hocc)
  have hckx : m.colP (m.width - 1 - kx) := Nat.find_spec (Mask.exists_col_rev hocc)
  have hrky : m.rowP (m.height - 1 - ky) := Nat.find_spec (Mask.exists_row_rev hocc)
  have hlmin : ∀ x, m.colP x → l ≤ x := fun x hx =>
    hl ▸ Nat.find_min' (Mask.exists_col hocc) hx
  have htmin : ∀ y, m.rowP y → t ≤ y := fun y hy =>
    ht ▸ Nat.find_min' (Mask.exists_row hocc) hy
  have hkxmin : ∀ x, m.colP x → kx ≤ m.width - 1 - x := by
    intro x hx
    have hxw : x < m.width := hx.1
    apply Nat.find_min' (Mask.exists_col_rev hocc)
    have : m.width - 1 - (m.width - 1 - x) = x := by omega
    rw [this]
    exact hx
  have hkymin : ∀ y, m.rowP y → ky ≤ m.height - 1 - y := by
    intro y hy
    have hyh : y < m.height := hy.1
    apply Nat.find_min' (Mask.exists_row_rev hocc)
    have : m.height - 1 - (m.height - 1 - y) = y := by omega
    rw [this]
    exact hy
  have hkxw : kx ≤ m.width - 1 := by
    have := hkxmin l hcl
    omega
  have hkyh : ky ≤ m.height - 1 := by
    have := hkymin t hrt
    omega
  have hwpos : 0 < m.width := lt_of_le_of_lt (Nat.zero_le _) hcl.1
  have hhpos : 0 < m.height := lt_of_le_of_lt (Nat.zero_le _) hrt.1
  have hbound : ∀ x, x < m.width → ∀ y, y < m.height → m.px x y = true →
      l ≤ x ∧ x < r ∧ t ≤ y ∧ y < b := by
    intro x hx y hy hp
    have hcx : m.colP x := Mask.colP_iff.mpr ⟨hx, y, hy, hp⟩
    have hry : m.rowP y := Mask.rowP_iff.mpr ⟨hy, x, hx, hp⟩
    have h1 := hlmin x hcx
    have h2 := hkxmin x hcx
    have h3 := htmin y hry
    have h4 := hkymin y hry
    refine ⟨h1, ?_, h3, ?_⟩
    · rw [← hr]
      omega
    · rw [← hb]
      omega
  refine ⟨⟨?_, ?_, ?_, ?_⟩, hbound, hcl, ?_, hrt, ?_⟩
  · have := hlmin _ hckx
    rw [← hr]
    omega
  · have := htmin _ hrky
    rw [← hb]
    omega
  · rw [← hr]
    omega
  · rw [← hb]
    omega
  · have : r - 1 = m.width - 1 - kx := by
      rw [← hr]
      omega
    rw [this]
    exact hckx
  · have : b - 1 = m.height - 1 - ky := by
      rw [← hb]
      omega
    rw [this]
    exact hrky

/-- Computation rule for `getbbox`: a box whose edges are attained and which
encloses every marked pixel is the bounding box. -/
lemma Mask.getbbox_eq_some {m : Mask} {l t r b : Nat}
    (hcl : m.colP l) (hcr : m.colP (r - 1)) (hrt : m.rowP t)
    (hrb : m.rowP (b - 1)) (hr1 : 1 ≤ r) (hb1 : 1 ≤ b)
    (hbound : ∀ x, x < m.width → ∀ y, y < m.height → m.px x y = true →
      l ≤ x ∧ x < r ∧ t ≤ y ∧ y < b) :
    m.getbbox = some (l, t, r, b) := by
  have hocc : m.occupied = true := Mask.occupied_iff.mpr ⟨l, hcl⟩
  have hpix : ∀ x, m.colP x → ∃ y, y < m.height ∧ m.px x y = true := by
    intro x hx
    exact (Mask.colP_iff.mp hx).2
  have hpiy : ∀ y, m.rowP y → ∃ x, x < m.width ∧ m.px x y = true := by
    intro y hy
    exact (Mask.rowP_iff.mp hy).2
  have hrw : r ≤ m.width := by
    have := hcr.1
    omega
  have hbh : b ≤ m.height := by
    have := hrb.1
    omega
  unfold Mask.getbbox
  rw [dif_pos hocc, Option.some_inj, Prod.mk.injEq, Prod.mk.injEq, Prod.mk.injEq]
  have hfl : Nat.find (Mask.exists_col hocc) = l := by
    rw [Nat.find_eq_iff]
    refine ⟨hcl, ?_⟩
    intro x hx hcx
    obtain ⟨y, hy, hp⟩ := hpix x hcx
    have := (hbound x hcx.1 y hy hp).1
    omega
  have hft : Nat.find (Mask.exists_row hocc) = t := by
    rw [Nat.find_eq_iff]
    refine ⟨hrt, ?_⟩
    intro y hy hry
    obtain ⟨x, hx, hp⟩ := hpiy y hry
    have := (hbound x hx y hry.1 hp).2.2.1
    omega
  have hfr : Nat.find (Mask.exists_col_rev hocc) = m.width - r := by
    rw [Nat.find_eq_iff]
    constructor
    · have : m.width - 1 - (m.width - r) = r - 1 := by omega
      rw [this]
      exact hcr
    · intro k hk hck
      obtain ⟨y, hy, hp⟩ := hpix _ hck
      have := (hbound _ hck.1 y hy hp).2.1
      have hkw : m.width - 1 - k < m.width := hck.1
      omega
  have hfb : Nat.find (Mask.exists_row_rev hocc) = m.height - b := by
    rw [Nat.find_eq_iff]
    constructor
    · have : m.height - 1 - (m.height - b) = b - 1 := by omega
      rw [this]
      exact hrb
    · intro k hk hrk
      obtain ⟨x, hx, hp⟩ := hpiy _ hrk
      have := (hbound x hx _ hrk.1 hp).2.2.2
      have hkh : m.height - 1 - k < m.height := hrk.1
      omega
  refine ⟨hfl, hft, ?_, ?_⟩
  · rw [hfr]
    omega
  · rw [hfb]
    omega

/-- `Image.crop((l, t, r, b))`: the `(r-l) × (b-t)` window at offset
`(l, t)`; PIL fills pixels sampled outside the source with 0. -/
def Mask.crop (m : Mask) (l t r b : Nat) : Mask :=
  ⟨r - l, b - t, fun x y =>
    if l + x < m.width ∧ t + y < m.height then m.px (l + x) (t + y) else false⟩

/-- `Image.resize(size, resample=Image.NEAREST)`: each output pixel samples
the source at the floor of its centre mapped back through the scale. -/
def Mask.resizeNearest (m : Mask) (nw nh : Nat) : Mask :=
  ⟨nw, nh, fun x y =>
    m.px (Int.toNat ⌊(((x : ℚ) + 1 / 2) * m.width) / nw⌋)
      (Int.toNat ⌊(((y : ℚ) + 1 / 2) * m.height) / nh⌋)⟩

/-- The 4-connected in-range neighbours of a pixel. -/
def neighbors4 (w h : Nat) (p : Nat × Nat) : List (Nat × Nat) :=
  (if p.1 + 1 < w then [(p.1 + 1, p.2)] else []) ++
  (if 0 < p.1 then [(p.1 - 1, p.2)] else []) ++
  (if p.2 + 1 < h then [(p.1, p.2 + 1)] else []) ++
  (if 0 < p.2 then [(p.1, p.2 - 1)] else [])

/-- Breadth-first traversal of the marked 4-connected region, collecting
visited pixels.  Fuel bounds the number of frontier pops; `clearBorder`
supplies enough fuel to drain the frontier completely. -/
def bfsComponent (m : Mask) : Nat → List (Nat × Nat) → List (Nat × Nat) →
    List (Nat × Nat)
  | 0, _, visited => visited
  | _ + 1, [], visited => visited
  | fuel + 1, p :: frontier, visited =>
    if p ∈ visited then bfsComponent m fuel frontier visited
    else
      bfsComponent m fuel
        (frontier ++ (neighbors4 m.width m.height p).filter fun q => m.px q.1 q.2)
        (p :: visited)

/-- `ImageDraw.floodfill(mask, seed, 0, thresh=0)` with a marked seed: the
4-connected marked region containing the seed. -/
def floodComponent (m : Mask) (seed : Nat × Nat) : List (Nat × Nat) :=
  bfsComponent m (4 * m.width * m.height + 1) [seed] []

/-- Overwrite the listed pixels with 0. -/
def Mask.clearPoints (m : Mask) (pts : List (Nat × Nat)) : Mask :=
  ⟨m.width, m.height, fun x y => if (x, y) ∈ pts then false else m.px x y⟩

/-- `flood_if_transparent(x, y)` from the source: flood-fill the marked
region at `p` to 0 whenever `p` itself is marked. -/
def flood_if_transparent (m : Mask) (p : Nat × Nat) : Mask :=
  if m.px p.1 p.2 then m.clearPoints (floodComponent m p) else m

/-- The border pixels visited by the two seed loops of the source:
`(x, 0)` and `(x, height-1)` for every column, then `(0, y)` and
`(width-1, y)` for every row. -/
def borderSeeds (w h : Nat) : List (Nat × Nat) :=
  ((List.range w).flatMap fun x => [(x, 0), (x, h - 1)]) ++
  ((List.range h).flatMap fun y => [(0, y), (w - 1, y)])

/-- The border flood-fill loop: clear every border-connected marked region. -/
def clearBorder (m : Mask) : Mask :=
  (borderSeeds m.width m.height).foldl flood_if_transparent m

/-! ### Flood-fill facts -/

lemma bfsComponent_visited_sub (m : Mask) :
    ∀ (fuel : Nat) (frontier visited : List (Nat × Nat)),
      visited ⊆ bfsComponent m fuel frontier visited := by
  intro fuel
  induction fuel with
  | zero =>
    intro frontier visited
    rw [bfsComponent]
    exact fun q hq => hq
  | succ n ih =>
    intro frontier visited
    match frontier with
    | [] =>
      rw [bfsComponent]
      exact fun q hq => hq
    | p :: rest =>
      rw [bfsComponent]
      split
      · exact ih rest visited
      · exact fun q hq => ih _ (p :: visited) (by simp [hq])

lemma seed_mem_floodComponent (m : Mask) (p : Nat × Nat) :
    p ∈ floodComponent m p := by
  unfold floodComponent
  rw [bfsComponent]
  rw [if_neg (by simp)]
  exact bfsComponent_visited_sub m _ _ _ (by simp)

lemma clearPoints_width (m : Mask) (pts : List (Nat × Nat)) :
    (m.clearPoints pts).width = m.width := rfl

lemma flood_if_transparent_width (m : Mask) (p : Nat × Nat) :
    (flood_if_transparent m p).width = m.width := by
  unfold flood_if_transparent
  split <;> rfl

lemma flood_if_transparent_height (m : Mask) (p : Nat × Nat) :
    (flood_if_transparent m p).height = m.height := by
  unfold flood_if_transparent
  split <;> rfl

lemma flood_if_transparent_px_mono {m : Mask} {p : Nat × Nat} {x y : Nat}
    (h : (flood_if_transparent m p).px x y = true) : m.px x y = true := by
  unfold flood_if_transparent at h
  split at h
  · unfold Mask.clearPoints at h
    simp only at h
    split at h
    · cases h
    · exact h
  · exact h

lemma flood_if_transparent_px_seed (m : Mask) (p : Nat × Nat) :
    (flood_if_transparent m p).px p.1 p.2 = false := by
  unfold flood_if_transparent
  split
  · unfold Mask.clearPoints
    simp only
    rw [if_pos]
    exact seed_mem_floodComponent m p
  · next h => exact Bool.eq_false_iff.mpr h

lemma foldl_flood_px_mono :
    ∀ (seeds : List (Nat × Nat)) (m : Mask) (x y : Nat),
      (seeds.foldl flood_if_transparent m).px x y = true → m.px x y = true := by
  intro seeds
  induction seeds with
  | nil => intro m x y h; exact h
  | cons p rest ih =>
    intro m x y h
    rw [List.foldl_cons] at h
    exact flood_if_transparent_px_mono (ih _ x y h)

lemma foldl_flood_px_seeds :
    ∀ (seeds : List (Nat × Nat)) (m : Mask) (q : Nat × Nat), q ∈ seeds →
      (seeds.foldl flood_if_transparent m).px q.1 q.2 = false := by
  intro seeds
  induction seeds with
  | nil => intro m q hq; simp at hq
  | cons p rest ih =>
    intro m q hq
    rw [List.foldl_cons]
    rcases List.mem_cons.mp hq with rfl | hq
    · by_cases hcase :
          ((rest.foldl flood_if_transparent (flood_if_transparent m q)).px q.1 q.2) = true
      · have := foldl_flood_px_mono rest _ q.1 q.2 hcase
        rw [flood_if_transparent_px_seed m q] at this
        cases this
      · exact Bool.eq_false_iff.mpr hcase
    · exact ih _ q hq

lemma foldl_flood_width :
    ∀ (seeds : List (Nat × Nat)) (m : Mask),
      (seeds.foldl flood_if_transparent m).width = m.width := by
  intro seeds
  induction seeds with
  | nil => intro m; rfl
  | cons p rest ih =>
    intro m
    rw [List.foldl_cons, ih, flood_if_transparent_width]

lemma foldl_flood_height :
    ∀ (seeds : List (Nat × Nat)) (m : Mask),
      (seeds.foldl flood_if_transparent m).height = m.height := by
  intro seeds
  induction seeds with
  | nil => intro m; rfl
  | cons p rest ih =>
    intro m
    rw [List.foldl_cons, ih, flood_if_transparent_height]

lemma clearBorder_width (m : Mask) : (clearBorder m).width = m.width :=
  foldl_flood_width _ m

lemma clearBorder_height (m : Mask) : (clearBorder m).height = m.height :=
  foldl_flood_height _ m

lemma mem_borderSeeds_left {w h x : Nat} (hx : x < w) (hy : 0 < h) :
    ((x, 0) ∈ borderSeeds w h ∧ (x, h - 1) ∈ borderSeeds w h) ∧
    ∀ y, y < h → (0, y) ∈ borderSeeds w h ∧ (w - 1, y) ∈ borderSeeds w h := by
  unfold borderSeeds
  constructor
  · constructor <;>
    · apply List.mem_append_left
      rw [List.mem_flatMap]
      exact ⟨x, List.mem_range.mpr hx, by simp⟩
  · intro y hyy
    constructor <;>
    · apply List.mem_append_right
      rw [List.mem_flatMap]
      exact ⟨y, List.mem_range.mpr hyy, by simp⟩

/-- After the border flood-fill loop, no border pixel remains marked. -/
lemma clearBorder_border_false (m : Mask) (hw : 0 < m.width) (hh : 0 < m.height) :
    (∀ x, x < m.width → (clearBorder m).px x 0 = false ∧
      (clearBorder m).px x (m.height - 1) = false) ∧
    (∀ y, y < m.height → (clearBorder m).px 0 y = false ∧
      (clearBorder m).px (m.width - 1) y = false) := by
  constructor
  · intro x hx
    have hmem := (mem_borderSeeds_left hx hh).1
    exact ⟨foldl_flood_px_seeds _ m (x, 0) hmem.1,
      foldl_flood_px_seeds _ m (x, m.height - 1) hmem.2⟩
  · intro y hy
    have hmem := (mem_borderSeeds_left hw hh).2 y hy
    exact ⟨foldl_flood_px_seeds _ m (0, y) hmem.1,
      foldl_flood_px_seeds _ m (m.width - 1, y) hmem.2⟩

/-- Python 3 `round` (round half to even), on exact rationals. -/
def pyRound (q : ℚ) : ℤ :=
  if q - ⌊q⌋ < 1 / 2 then ⌊q⌋
  else if 1 / 2 < q - ⌊q⌋ then ⌊q⌋ + 1
  else if ⌊q⌋ % 2 = 0 then ⌊q⌋ else ⌊q⌋ + 1

lemma pyRound_intCast (n : ℤ) : pyRound (n : ℚ) = n := by
  unfold pyRound
  rw [Int.floor_intCast, if_pos]
  rw [sub_self]
  norm_num

lemma pyRound_natCast (n : ℕ) : pyRound (n : ℚ) = n := by
  have h : ((n : ℤ) : ℚ) = (n : ℚ) := by push_cast; ring
  rw [← h, pyRound_intCast]

lemma pyRound_le (q : ℚ) : (pyRound q : ℚ) ≤ q + 1 / 2 := by
  unfold pyRound
  have hfl : (⌊q⌋ : ℚ) ≤ q := Int.floor_le q
  split
  · linarith
  · next h1 =>
    split
    · next h2 =>
      push_cast
      linarith
    · next h2 =>
      have heq : q - ⌊q⌋ = 1 / 2 := le_antisymm (not_lt.mp h2) (not_lt.mp h1)
      split
      · linarith
      · push_cast
        linarith

/-- `compute_viewport(image)` from the source, returning
`(origin, size)` in original-image integer coordinates. -/
def compute_viewport (image : RasterImage) : (ℤ × ℤ) × (ℤ × ℤ) :=
  match image.alpha with
  | none => ((0, 0), ((image.width : ℤ), (image.height : ℤ)))
  | some alpha =>
    let transparent_mask : Mask :=
      ⟨image.width, image.height, fun x y => decide (alpha x y ≤ ALPHA_THRESHOLD)⟩
    let solid_mask : Mask :=
      ⟨image.width, image.height,
        fun x y => decide (SOLID_ALPHA_THRESHOLD ≤ alpha x y)⟩
    let alpha_band : Mask :=
      ⟨image.width, image.height, fun x y => decide (alpha x y ≠ 0)⟩
    match solid_mask.getbbox.or alpha_band.getbbox with
    | none => ((0, 0), ((image.width : ℤ), (image.height : ℤ)))
    | some (dl, dt, dr, db) =>
      let cropped_mask := transparent_mask.crop dl dt dr db
      let crop_width := dr - dl
      let crop_height := db - dt
      let max_dim := max crop_width crop_height
      let scale : ℚ :=
        if MAX_MASK_DIMENSION < max_dim then
          (MAX_MASK_DIMENSION : ℚ) / (max_dim : ℚ)
        else 1
      let scaled_mask : Mask :=
        if MAX_MASK_DIMENSION < max_dim then
          cropped_mask.resizeNearest
            (max 1 (Int.toNat ⌈(crop_width : ℚ) * scale⌉))
            (max 1 (Int.toNat ⌈(crop_height : ℚ) * scale⌉))
        else cropped_mask
      let final_mask := clearBorder scaled_mask
      match final_mask.getbbox with
      | none => ((0, 0), ((image.width : ℤ), (image.height : ℤ)))
      | some (vl, vt, vr, vb) =>
        let inverse_scale : ℚ := if scale = 1 then 1 else 1 / scale
        let left : ℤ := (dl : ℤ) + pyRound ((vl : ℚ) * inverse_scale)
        let top : ℤ := (dt : ℤ) + pyRound ((vt : ℚ) * inverse_scale)
        let right : ℤ := (dl : ℤ) + pyRound ((vr : ℚ) * inverse_scale)
        let bottom : ℤ := (dt : ℤ) + pyRound ((vb : ℚ) * inverse_scale)
        ((left, top), (right - left, bottom - top))

/-- **C4.**  An image with no alpha channel yields the full image bounds
exactly: origin `(0, 0)`, size `(width, height)`. -/
theorem viewport_no_alpha (w h : Nat) :
    compute_viewport ⟨w, h, none⟩ = ((0, 0), ((w : ℤ), (h : ℤ))) := rfl

/-- **C5.**  An image whose alpha channel is 0 at every pixel yields the full
image bounds: both the near-solid mask and the non-zero-alpha bounding box
are empty, so the degenerate fallback returns `(0, 0)` and the image size. -/
theorem viewport_all_transparent (w h : Nat) (alpha : Nat → Nat → Nat)
    (halpha : ∀ x, x < w → ∀ y, y < h → alpha x y = 0) :
    compute_viewport ⟨w, h, some alpha⟩ = ((0, 0), ((w : ℤ), (h : ℤ))) := by
  unfold compute_viewport
  dsimp only
  have hsolid : (⟨w, h,
      fun x y => decide (SOLID_ALPHA_THRESHOLD ≤ alpha x y)⟩ : Mask).getbbox
      = none := by
    rw [Mask.getbbox_eq_none_iff]
    intro x hx y hy
    simp only
    rw [halpha x hx y hy]
    decide
  have hband : (⟨w, h, fun x y => decide (alpha x y ≠ 0)⟩ : Mask).getbbox
      = none := by
    rw [Mask.getbbox_eq_none_iff]
    intro x hx y hy
    simp only
    rw [halpha x hx y hy]
    decide
  rw [hsolid, hband]
  rfl

/-- Witness for C5: a concrete 3×2 fully transparent image. -/
theorem viewport_all_transparent_witness :
    compute_viewport ⟨3, 2, some fun _ _ => 0⟩ = ((0, 0), ((3 : ℤ), (2 : ℤ))) :=
  viewport_all_transparent 3 2 (fun _ _ => 0) (fun _ _ _ _ => rfl)

/-! ### C1: the returned rectangle stays inside the image -/

lemma scale_lt_one {md : Nat} (hmd : MAX_MASK_DIMENSION < md) :
    (MAX_MASK_DIMENSION : ℚ) / (md : ℚ) < 1 := by
  have hmdpos : (0 : ℚ) < (md : ℚ) := by
    have : 0 < md := lt_trans (by norm_num [MAX_MASK_DIMENSION]) hmd
    exact_mod_cast this
  rw [div_lt_one hmdpos]
  exact_mod_cast hmd

/-- Arithmetic core of the in-bounds invariant on the downscale path: a
scaled-mask coordinate at most `new_dim - 1` remaps, after rounding, to at
most the crop dimension. -/
lemma pyRound_remap_le {vr nw cw md : Nat}
    (hmd : MAX_MASK_DIMENSION < md) (hcw1 : 1 ≤ cw)
    (hnw : nw = max 1 (Int.toNat ⌈(cw : ℚ) * ((MAX_MASK_DIMENSION : ℚ) / (md : ℚ))⌉))
    (hvr1 : 1 ≤ vr) (hvr : vr ≤ nw - 1) :
    pyRound ((vr : ℚ) * (1 / ((MAX_MASK_DIMENSION : ℚ) / (md : ℚ)))) ≤ (cw : ℤ) := by
  set s : ℚ := (MAX_MASK_DIMENSION : ℚ) / (md : ℚ) with hs
  have hmdpos : (0 : ℚ) < (md : ℚ) := by
    have : 0 < md := lt_trans (by norm_num [MAX_MASK_DIMENSION]) hmd
    exact_mod_cast this
  have hMpos : (0 : ℚ) < (MAX_MASK_DIMENSION : ℚ) := by norm_num [MAX_MASK_DIMENSION]
  have hspos : 0 < s := div_pos hMpos hmdpos
  have hcwpos : (0 : ℚ) < (cw : ℚ) := by exact_mod_cast hcw1
  have hcspos : 0 < (cw : ℚ) * s := mul_pos hcwpos hspos
  have hceil1 : 1 ≤ ⌈(cw : ℚ) * s⌉ := Int.ceil_pos.mpr hcspos
  have htoNat : ((Int.toNat ⌈(cw : ℚ) * s⌉ : ℕ) : ℤ) = ⌈(cw : ℚ) * s⌉ :=
    Int.toNat_of_nonneg (by omega)
  have htn1 : 1 ≤ Int.toNat ⌈(cw : ℚ) * s⌉ := by omega
  have hnw' : nw = Int.toNat ⌈(cw : ℚ) * s⌉ := by
    rw [hnw, max_eq_right htn1]
  have hnwceil : ((nw : ℤ) : ℚ) = (⌈(cw : ℚ) * s⌉ : ℚ) := by
    rw [hnw']
    exact_mod_cast congrArg (fun z : ℤ => (z : ℚ)) htoNat
  have hnw1 : 1 ≤ nw := by rw [hnw']; exact htn1
  have hvrQ : (vr : ℚ) ≤ ((nw : ℚ)) - 1 := by
    have hz : (vr : ℤ) ≤ (nw : ℤ) - 1 := by omega
    have hq : ((vr : ℤ) : ℚ) ≤ (((nw : ℤ) - 1 : ℤ) : ℚ) := by exact_mod_cast hz
    push_cast at hq
    exact hq
  have hlt : ((nw : ℚ)) - 1 < (cw : ℚ) * s := by
    have hc := Int.ceil_lt_add_one ((cw : ℚ) * s)
    have : ((nw : ℚ)) = (⌈(cw : ℚ) * s⌉ : ℚ) := by exact_mod_cast hnwceil
    rw [this]
    linarith
  have hvrlt : (vr : ℚ) < (cw : ℚ) * s := lt_of_le_of_lt hvrQ hlt
  have hsne : s ≠ 0 := ne_of_gt hspos
  have hfin : (vr : ℚ) * (1 / s) < (cw : ℚ) := by
    have hmul : (vr : ℚ) * (1 / s) < ((cw : ℚ) * s) * (1 / s) :=
      mul_lt_mul_of_pos_right hvrlt (by positivity)
    have hcs : ((cw : ℚ) * s) * (1 / s) = (cw : ℚ) := by
      field_simp
    rw [hcs] at hmul
    exact hmul
  have hpr := pyRound_le ((vr : ℚ) * (1 / s))
  have hq : (pyRound ((vr : ℚ) * (1 / s)) : ℚ) < (cw : ℚ) + 1 := by linarith
  have hz : pyRound ((vr : ℚ) * (1 / s)) < (cw : ℤ) + 1 := by exact_mod_cast hq
  omega

/-- A bounding box found after the border flood-fill avoids the border: its
exclusive right/bottom edges are at most `width - 1` / `height - 1`. -/
lemma clearBorder_bbox_lt {M : Mask} {vl vt vr vb : Nat}
    (hw : 0 < M.width) (hh : 0 < M.height)
    (heq : (clearBorder M).getbbox = some (vl, vt, vr, vb)) :
    (1 ≤ vr ∧ vr ≤ M.width - 1) ∧ (1 ≤ vb ∧ vb ≤ M.height - 1) := by
  have spec := Mask.getbbox_some_spec heq
  have hwidth : (clearBorder M).width = M.width := clearBorder_width M
  have hheight : (clearBorder M).height = M.height := clearBorder_height M
  have hborder := clearBorder_border_false M hw hh
  obtain ⟨⟨hlr, htb, hrW, hbH⟩, _, _, hcr, _, hrb⟩ := spec
  rw [hwidth] at hrW
  rw [hheight] at hbH
  have hcol := Mask.colP_iff.mp hcr
  obtain ⟨hcrw, y, hy, hpy⟩ := hcol
  rw [hwidth] at hcrw
  rw [hheight] at hy
  have hrne : vr - 1 ≠ M.width - 1 := by
    intro hcontra
    have := (hborder.2 y hy).2
    rw [← hcontra] at this
    rw [this] at hpy
    cases hpy
  have hrow := Mask.rowP_iff.mp hrb
  obtain ⟨hrbh, x, hx, hpx⟩ := hrow
  rw [hheight] at hrbh
  rw [hwidth] at hx
  have hbne : vb - 1 ≠ M.height - 1 := by
    intro hcontra
    have := (hborder.1 x hx).2
    rw [← hcontra] at this
    rw [this] at hpx
    cases hpx
  refine ⟨⟨by omega, by omega⟩, by omega, by omega⟩

/-- **C1.**  For every decoded image the rectangle returned by
`compute_viewport` stays inside the image: `origin.x + size.w ≤ width` and
`origin.y + size.h ≤ height`, including when the downscale cap and the
rounded inverse-scale remapping are exercised. -/
theorem viewport_within_image (image : RasterImage) :
    (compute_viewport image).1.1 + (compute_viewport image).2.1 ≤ (image.width : ℤ) ∧
    (compute_viewport image).1.2 + (compute_viewport image).2.2 ≤ (image.height : ℤ) := by
  obtain ⟨w, h, alphaOpt⟩ := image
  rcases alphaOpt with _ | a
  · constructor <;> simp [compute_viewport]
  · rcases hcv : compute_viewport ⟨w, h, some a⟩ with ⟨⟨ox, oy⟩, sx, sy⟩
    dsimp only
    unfold compute_viewport at hcv
    dsimp only at hcv
    split at hcv
    · injection hcv with h1 h2
      injection h1 with e1 e2
      injection h2 with e3 e4
      subst e1
      subst e2
      subst e3
      subst e4
      constructor <;> omega
    · rename_i dl dt dr db heq
      have hdev : dl < dr ∧ dt < db ∧ dr ≤ w ∧ db ≤ h := by
        rcases Option.or_eq_some.mp heq with hbb | ⟨_, hbb⟩
        · exact (Mask.getbbox_some_spec hbb).1
        · exact (Mask.getbbox_some_spec hbb).1
      by_cases hscale : MAX_MASK_DIMENSION < max (dr - dl) (db - dt)
      · simp only [if_pos hscale] at hcv
        have hsne : ((MAX_MASK_DIMENSION : ℚ) / ((max (dr - dl) (db - dt) : ℕ) : ℚ))
            ≠ 1 := ne_of_lt (scale_lt_one hscale)
        simp only [if_neg hsne] at hcv
        split at hcv
        · injection hcv with h1 h2
          injection h1 with e1 e2
          injection h2 with e3 e4
          subst e1
          subst e2
          subst e3
          subst e4
          constructor <;> omega
        · rename_i vl vt vr vb heq2
          have hw1 : 0 < (1 : ℕ) ⊔ (Int.toNat ⌈((dr - dl : ℕ) : ℚ) *
              ((MAX_MASK_DIMENSION : ℚ) / ((max (dr - dl) (db - dt) : ℕ) : ℚ))⌉) :=
            lt_of_lt_of_le Nat.zero_lt_one (le_max_left _ _)
          have hh1 : 0 < (1 : ℕ) ⊔ (Int.toNat ⌈((db - dt : ℕ) : ℚ) *
              ((MAX_MASK_DIMENSION : ℚ) / ((max (dr - dl) (db - dt) : ℕ) : ℚ))⌉) :=
            lt_of_lt_of_le Nat.zero_lt_one (le_max_left _ _)
          have hB := clearBorder_bbox_lt hw1 hh1 heq2
          have hhor := pyRound_remap_le hscale (by omega : 1 ≤ dr - dl) rfl
            hB.1.1 hB.1.2
          have hver := pyRound_remap_le hscale (by omega : 1 ≤ db - dt) rfl
            hB.2.1 hB.2.2
          injection hcv with h1 h2
          injection h1 with e1 e2
          injection h2 with e3 e4
          subst e1
          subst e2
          subst e3
          subst e4
          constructor <;> omega
      · simp only [if_neg hscale, if_pos rfl, if_true, mul_one, pyRound_natCast] at hcv
        split at hcv
        · injection hcv with h1 h2
          injection h1 with e1 e2
          injection h2 with e3 e4
          subst e1
          subst e2
          subst e3
          subst e4
          constructor <;> omega
        · rename_i vl vt vr vb heq2
          have spec := Mask.getbbox_some_spec heq2
          obtain ⟨⟨hlr, htb, hrW, hbH⟩, _, _⟩ := spec
          rw [clearBorder_width] at hrW
          rw [clearBorder_height] at hbH
          have hrW' : vr ≤ dr - dl := hrW
          have hbH' : vb ≤ db - dt := hbH
          injection hcv with h1 h2
          injection h1 with e1 e2
          injection h2 with e3 e4
          subst e1
          subst e2
          subst e3
          subst e4
          constructor <;> omega

/-! ### C3: the enclosed-aperture test image -/

lemma foldl_flood_eq_self :
    ∀ (seeds : List (Nat × Nat)) (m : Mask),
      (∀ p ∈ seeds, m.px p.1 p.2 = false) →
      seeds.foldl flood_if_transparent m = m := by
  intro seeds
  induction seeds with
  | nil => intro m _; rfl
  | cons p rest ih =>
    intro m h
    rw [List.foldl_cons]
    have hstep : flood_if_transparent m p = m := by
      unfold flood_if_transparent
      rw [if_neg]
      rw [h p (by simp)]
      simp
    rw [hstep, ih m fun q hq => h q (by simp [hq])]

/-- When no border pixel is marked, the border flood-fill loop is the
identity. -/
lemma clearBorder_eq_self (m : Mask)
    (h : ∀ p ∈ borderSeeds m.width m.height, m.px p.1 p.2 = false) :
    clearBorder m = m :=
  foldl_flood_eq_self _ m h

/-- The C3 test image: a 120×120 canvas, fully transparent except for a
solid opaque (alpha 255) square frame of outer size 100×100 at offset
`(10, 10)`, which encloses a fully transparent 40×40 hole centred in the
frame — hole origin `(40, 40)` in image coordinates. -/
def frameAlpha (x y : Nat) : Nat :=
  if 10 ≤ x ∧ x < 110 ∧ 10 ≤ y ∧ y < 110 then
    if 40 ≤ x ∧ x < 80 ∧ 40 ≤ y ∧ y < 80 then 0 else 255
  else 0

/-- The decoded form of the C3 test image. -/
def frameImage : RasterImage := ⟨120, 120, some frameAlpha⟩

set_option maxRecDepth 200000 in
set_option maxHeartbeats 4000000 in
/-- **C3.**  On the enclosed-aperture image, viewport detection returns
exactly the hole's rectangle: origin `(40, 40)`, size `(40, 40)`.  The
device-bounds crop (tight around the opaque frame) removes the exterior
transparency, the border flood-fill finds no remaining border-touching
transparency, and the hole's bounding box is remapped by the device-bounds
offset `(10, 10)`. -/
theorem viewport_enclosed_aperture :
    compute_viewport frameImage = ((40, 40), (40, 40)) := by
  unfold compute_viewport frameImage
  dsimp only
  have hsolid : (⟨120, 120, fun x y =>
      decide (SOLID_ALPHA_THRESHOLD ≤ frameAlpha x y)⟩ : Mask).getbbox
      = some (10, 10, 110, 110) := by
    apply Mask.getbbox_eq_some
    · decide
    · decide
    · decide
    · decide
    · decide
    · decide
    · decide
  rw [hsolid, Option.or_some]
  dsimp only
  have h2000 : ¬(MAX_MASK_DIMENSION < (110 - 10) ⊔ (110 - 10)) := by decide
  rw [if_neg h2000, if_neg h2000, if_pos (rfl : (1 : ℚ) = 1)]
  have hcb : clearBorder ((⟨120, 120, fun x y =>
      decide (frameAlpha x y ≤ ALPHA_THRESHOLD)⟩ : Mask).crop 10 10 110 110) =
      (⟨120, 120, fun x y =>
      decide (frameAlpha x y ≤ ALPHA_THRESHOLD)⟩ : Mask).crop 10 10 110 110 :=
    clearBorder_eq_self _ (by decide)
  rw [hcb]
  have hfinal : ((⟨120, 120, fun x y =>
      decide (frameAlpha x y ≤ ALPHA_THRESHOLD)⟩ : Mask).crop 10 10 110 110).getbbox
      = some (30, 30, 70, 70) := by
    apply Mask.getbbox_eq_some
    · decide
    · decide
    · decide
    · decide
    · decide
    · decide
    · decide
  rw [hfinal]
  dsimp only
  simp only [mul_one, pyRound_natCast]
  norm_num

/-! ### C2: totality

`compute_viewport_checked` mirrors `compute_viewport` but makes every
operation that could raise at runtime in the source explicit: the border
loop's pixel reads (`pixels[x, y]`, an `IndexError` when out of range) and
the two divisions (`MAX_MASK_DIMENSION / max_dim` and `1.0 / scale`, a
`ZeroDivisionError` when the divisor is zero).  A `none` result marks a
failure; C2 states the checked run always returns `some` of the total
result. -/

/-- Bounds-checked pixel read (`pixels[x, y]`). -/
def Mask.pxChecked (m : Mask) (x y : Nat) : Option Bool :=
  if x < m.width ∧ y < m.height then some (m.px x y) else none

/-- `flood_if_transparent` with a checked seed read. -/
def flood_if_transparent_checked (m : Mask) (p : Nat × Nat) : Option Mask :=
  match m.pxChecked p.1 p.2 with
  | none => none
  | some b => some (if b then m.clearPoints (floodComponent m p) else m)

/-- The border flood-fill loop with checked pixel reads. -/
def clearBorder_checked (m : Mask) : Option Mask :=
  (borderSeeds m.width m.height).foldlM flood_if_transparent_checked m

/-- `compute_viewport` with explicit failure points. -/
def compute_viewport_checked (image : RasterImage) :
    Option ((ℤ × ℤ) × (ℤ × ℤ)) :=
  match image.alpha with
  | none => some ((0, 0), ((image.width : ℤ), (image.height : ℤ)))
  | some alpha =>
    let transparent_mask : Mask :=
      ⟨image.width, image.height, fun x y => decide (alpha x y ≤ ALPHA_THRESHOLD)⟩
    let solid_mask : Mask :=
      ⟨image.width, image.height,
        fun x y => decide (SOLID_ALPHA_THRESHOLD ≤ alpha x y)⟩
    let alpha_band : Mask :=
      ⟨image.width, image.height, fun x y => decide (alpha x y ≠ 0)⟩
    match solid_mask.getbbox.or alpha_band.getbbox with
    | none => some ((0, 0), ((image.width : ℤ), (image.height : ℤ)))
    | some (dl, dt, dr, db) =>
      let cropped_mask := transparent_mask.crop dl dt dr db
      let crop_width := dr - dl
      let crop_height := db - dt
      let max_dim := max crop_width crop_height
      if MAX_MASK_DIMENSION < max_dim ∧ max_dim = 0 then none
      else
        let scale : ℚ :=
          if MAX_MASK_DIMENSION < max_dim then
            (MAX_MASK_DIMENSION : ℚ) / (max_dim : ℚ)
          else 1
        let scaled_mask : Mask :=
          if MAX_MASK_DIMENSION < max_dim then
            cropped_mask.resizeNearest
              (max 1 (Int.toNat ⌈(crop_width : ℚ) * scale⌉))
              (max 1 (Int.toNat ⌈(crop_height : ℚ) * scale⌉))
          else cropped_mask
        match clearBorder_checked scaled_mask with
        | none => none
        | some final_mask =>
          match final_mask.getbbox with
          | none => some ((0, 0), ((image.width : ℤ), (image.height : ℤ)))
          | some (vl, vt, vr, vb) =>
            if scale = 0 ∧ ¬scale = 1 then none
            else
              let inverse_scale : ℚ := if scale = 1 then 1 else 1 / scale
              let left : ℤ := (dl : ℤ) + pyRound ((vl : ℚ) * inverse_scale)
              let top : ℤ := (dt : ℤ) + pyRound ((vt : ℚ) * inverse_scale)
              let right : ℤ := (dl : ℤ) + pyRound ((vr : ℚ) * inverse_scale)
              let bottom : ℤ := (dt : ℤ) + pyRound ((vb : ℚ) * inverse_scale)
              some ((left, top), (right - left, bottom - top))

lemma mem_borderSeeds_in_range {w h : Nat} {p : Nat × Nat}
    (hw : 0 < w) (hh : 0 < h) (hp : p ∈ borderSeeds w h) :
    p.1 < w ∧ p.2 < h := by
  unfold borderSeeds at hp
  rw [List.mem_append] at hp
  rcases hp with hp | hp <;>
  · rw [List.mem_flatMap] at hp
    obtain ⟨i, hi, hmem⟩ := hp
    rw [List.mem_range] at hi
    simp only [List.mem_cons, List.not_mem_nil, or_false] at hmem
    rcases hmem with rfl | rfl <;> constructor <;> simp <;> omega

lemma foldlM_flood_eq :
    ∀ (seeds : List (Nat × Nat)) (m : Mask),
      (∀ p ∈ seeds, p.1 < m.width ∧ p.2 < m.height) →
      seeds.foldlM flood_if_transparent_checked m =
        some (seeds.foldl flood_if_transparent m) := by
  intro seeds
  induction seeds with
  | nil => intro m _; rfl
  | cons p rest ih =>
    intro m h
    have hp := h p (by simp)
    rw [List.foldlM_cons, List.foldl_cons]
    have hstep : flood_if_transparent_checked m p = some (flood_if_transparent m p) := by
      unfold flood_if_transparent_checked Mask.pxChecked flood_if_transparent
      rw [if_pos hp]
    rw [hstep]
    show (rest.foldlM flood_if_transparent_checked (flood_if_transparent m p)) = _
    apply ih
    intro q hq
    have := h q (by simp [hq])
    rw [flood_if_transparent_width, flood_if_transparent_height]
    exact this

/-- With positive dimensions (always the case for the masks the algorithm
feeds it), the checked border loop never fails. -/
lemma clearBorder_checked_eq (m : Mask) (hw : 0 < m.width) (hh : 0 < m.height) :
    clearBorder_checked m = some (clearBorder m) := by
  unfold clearBorder_checked clearBorder
  apply foldlM_flood_eq
  intro p hp
  exact mem_borderSeeds_in_range hw hh hp

/-- **C2.**  Viewport detection is total: on every decoded image the checked
evaluation — in which each potentially-raising operation of the source
(out-of-range pixel reads in the border loop, the two divisions) is an
explicit failure point — returns `some` of the total function's result.
Every ambiguous or degenerate input resolves to a rectangle, never to a
failure. -/
theorem compute_viewport_never_fails (image : RasterImage) :
    compute_viewport_checked image = some (compute_viewport image) := by
  obtain ⟨w, h, alphaOpt⟩ := image
  rcases alphaOpt with _ | a
  · rfl
  · unfold compute_viewport compute_viewport_checked
    dsimp only
    split
    · rfl
    · rename_i dl dt dr db heq
      have hdev : dl < dr ∧ dt < db ∧ dr ≤ w ∧ db ≤ h := by
        rcases Option.or_eq_some.mp heq with hbb | ⟨_, hbb⟩
        · exact (Mask.getbbox_some_spec hbb).1
        · exact (Mask.getbbox_some_spec hbb).1
      have hmdne : (dr - dl) ⊔ (db - dt) ≠ 0 := by
        have h1 : 0 < dr - dl := by omega
        have := le_max_left (dr - dl) (db - dt)
        omega
      by_cases hscale : MAX_MASK_DIMENSION < max (dr - dl) (db - dt)
      · rw [if_neg (by intro hc; exact hmdne hc.2)]
        simp only [if_pos hscale]
        have hw1 : 0 < ((((⟨w, h, fun x y =>
            decide (a x y ≤ ALPHA_THRESHOLD)⟩ : Mask).crop dl dt dr
            db).resizeNearest
            (max 1 (Int.toNat ⌈((dr - dl : ℕ) : ℚ) *
              ((MAX_MASK_DIMENSION : ℚ) / ((max (dr - dl) (db - dt) : ℕ) : ℚ))⌉))
            (max 1 (Int.toNat ⌈((db - dt : ℕ) : ℚ) *
              ((MAX_MASK_DIMENSION : ℚ) /
                ((max (dr - dl) (db - dt) : ℕ) : ℚ))⌉)))).width := by
          dsimp only [Mask.resizeNearest]
          exact lt_of_lt_of_le Nat.zero_lt_one (le_max_left _ _)
        have hh1 : 0 < ((((⟨w, h, fun x y =>
            decide (a x y ≤ ALPHA_THRESHOLD)⟩ : Mask).crop dl dt dr
            db).resizeNearest
            (max 1 (Int.toNat ⌈((dr - dl : ℕ) : ℚ) *
              ((MAX_MASK_DIMENSION : ℚ) / ((max (dr - dl) (db - dt) : ℕ) : ℚ))⌉))
            (max 1 (Int.toNat ⌈((db - dt : ℕ) : ℚ) *
              ((MAX_MASK_DIMENSION : ℚ) /
                ((max (dr - dl) (db - dt) : ℕ) : ℚ))⌉)))).height := by
          dsimp only [Mask.resizeNearest]
          exact lt_of_lt_of_le Nat.zero_lt_one (le_max_left _ _)
        rw [clearBorder_checked_eq _ hw1 hh1]
        dsimp only
        split
        · rfl
        · rename_i vl vt vr vb heq2
          have hspos : (0 : ℚ) <
              (MAX_MASK_DIMENSION : ℚ) / ((max (dr - dl) (db - dt) : ℕ) : ℚ) := by
            apply div_pos
            · norm_num [MAX_MASK_DIMENSION]
            · have : 0 < (dr - dl) ⊔ (db - dt) := Nat.pos_of_ne_zero hmdne
              exact_mod_cast this
          rw [if_neg (by intro hc; exact absurd hc.1 (ne_of_gt hspos))]
      · rw [if_neg (by intro hc; exact hscale hc.1)]
        simp only [if_neg hscale]
        have hwc : 0 < (((⟨w, h, fun x y =>
            decide (a x y ≤ ALPHA_THRESHOLD)⟩ : Mask).crop dl dt dr db)).width := by
          dsimp only [Mask.crop]
          omega
        have hhc : 0 < (((⟨w, h, fun x y =>
            decide (a x y ≤ ALPHA_THRESHOLD)⟩ : Mask).crop dl dt dr db)).height := by
          dsimp only [Mask.crop]
          omega
        rw [clearBorder_checked_eq _ hwc hhc]
        dsimp only
        split
        · rfl
        · rename_i vl vt vr vb heq2
          rw [if_neg (by simp)]
